import Mathlib

/-!
# Socratic — knowledge-base reconciliation and session supervision

A shallow embedding of the reconciliation (`kb-diff`, `kb-accept-file`,
`kb-reject-file`, `kb-export`) and session-supervision
(`sessionStore.js`, `synthesize/input`, `synthesize/start` stream)
routes of the Socratic web application, together with theorems about
the specified properties.

Directory trees are modelled as listings: lists of entries in the order
`fs.readdir` enumerates them, each entry carrying its name, a file flag
(`dirent.isFile()`), and its byte content as a string.  Filesystem
effects of the route handlers are made explicit: handlers take the
relevant trees (and the project configuration) as arguments and return
a response together with the updated trees and a trace of filesystem
operations.
-/

namespace Socratic

/-! ### Character-level string operations

JS string operations used by the routes (`endsWith`, `split`,
`includes`, `replace`, `trim`, and the `localeCompare` order) are
modelled by structurally recursive functions on the character list of
a `String`, so that every definition evaluates by kernel reduction. -/

/-- Whether the first character list is an initial segment of the
second. -/
def charsLead : List Char → List Char → Bool
  | [], _ => true
  | _ :: _, [] => false
  | a :: as, b :: bs => a == b && charsLead as bs

/-- `s.endsWith(pat)` — JS suffix test. -/
def strEndsWith (s pat : String) : Bool :=
  charsLead pat.data.reverse s.data.reverse

/-- Whether the first character list occurs inside the second. -/
def charsHas (pat : List Char) : List Char → Bool
  | [] => charsLead pat []
  | c :: cs => charsLead pat (c :: cs) || charsHas pat cs

/-- `s.includes(pat)` — JS substring containment. -/
def strIncludes (s pat : String) : Bool :=
  charsHas pat.data s.data

/-- `content.split('\n')` on the character list: the segments between
line terminators, in order (an empty trailing segment for a trailing
terminator, as in JS). -/
def splitNl : List Char → List (List Char)
  | [] => [[]]
  | c :: cs =>
    match splitNl cs with
    | [] => [[]]
    | cur :: rest => if c = '\n' then [] :: cur :: rest else (c :: cur) :: rest

/-- `content.split('\n')` as strings. -/
def splitLinesStr (s : String) : List String :=
  (splitNl s.data).map (fun cs => ⟨cs⟩)

/-- One step of `String(text).replace(/\n/g, '\\n')`: every line
terminator becomes the two characters backslash, `n`. -/
def escapeNlChars : List Char → List Char
  | [] => []
  | c :: cs =>
    if c = '\n' then '\\' :: 'n' :: escapeNlChars cs else c :: escapeNlChars cs

/-- Whitespace as JS `trim` strips it (space, tab, CR, LF suffice for
the session identifiers handled here). -/
def isWsChar (c : Char) : Bool :=
  c == ' ' || c == '\t' || c == '\n' || c == '\r'

/-- `s.trim()` — strip leading and trailing whitespace. -/
def trimStr (s : String) : String :=
  ⟨((s.data.dropWhile isWsChar).reverse.dropWhile isWsChar).reverse⟩

/-- Lexicographic order on character lists, by code point. -/
def charsLe : List Char → List Char → Bool
  | [], _ => true
  | _ :: _, [] => false
  | a :: as, b :: bs =>
    if a = b then charsLe as bs else decide (a.toNat < b.toNat)

/-- `a.localeCompare(b) <= 0`, modelled as code-point lexicographic
order. -/
def strLeB (a b : String) : Bool :=
  charsLe a.data b.data

/-- `sep.join(parts)` / `Array.join` — concatenation with a
separator. -/
def joinWith (sep : String) : List String → String
  | [] => ""
  | [s] => s
  | s :: rest => s ++ sep ++ joinWith sep rest

/-- One line operation of a computed diff, as pushed by
`computeUnifiedDiff` in `web/app/api/kb-diff/route.js`:
`{ type: 'add'|'del'|'ctx', line, lineNum }`. -/
structure DiffOp where
  type : String
  line : String
  lineNum : Nat
deriving Repr, DecidableEq

/-- One element of the output of the external `diff` library's
`Diff.diffLines` (an LCS-based line diff), restricted to a single line
per element.  The library groups consecutive lines of the same kind
into one change object whose `value` is their concatenation;
`computeUnifiedDiff` immediately splits `value` back into lines, so the
per-line form is observationally identical and is the one embedded. -/
structure LineChange where
  value : String
  added : Bool
  removed : Bool
deriving Repr, DecidableEq

/-- Number of non-context lines of a candidate diff; used to pick the
LCS-optimal (edit-minimal) alternative in `diffLinesModel`. -/
def changeCost (cs : List LineChange) : Nat :=
  (cs.filter (fun c => c.added || c.removed)).length

/-- The recursion of the longest-common-subsequence line diff, driven
by a fuel counter so that the definition is structural (each recursive
call consumes one unit, and one unit of combined input length); with
fuel at least the combined length of the inputs the fallback branch is
unreachable. -/
def diffLinesGo : Nat → List String → List String → List LineChange
  | 0, olds, news =>
    olds.map (fun l => ⟨l, false, true⟩) ++ news.map (fun l => ⟨l, true, false⟩)
  | _ + 1, [], news => news.map (fun l => ⟨l, true, false⟩)
  | fuel + 1, o :: os, [] => ⟨o, false, true⟩ :: diffLinesGo fuel os []
  | fuel + 1, o :: os, n :: ns =>
    if o = n then
      ⟨o, false, false⟩ :: diffLinesGo fuel os ns
    else
      let viaDel := ⟨o, false, true⟩ :: diffLinesGo fuel os (n :: ns)
      let viaAdd := ⟨n, true, false⟩ :: diffLinesGo fuel (o :: os) ns
      if changeCost viaDel ≤ changeCost viaAdd then viaDel else viaAdd

/-- Model of `Diff.diffLines` from the external `diff` npm package: an
LCS-based line diff.  The library is an external dependency of
`kb-diff/route.js`, not repository code; it is modelled by the standard
recursive longest-common-subsequence diff (minimising the number of
added plus removed lines, preferring the deletion-first alternative on
ties). -/
def diffLinesModel (olds news : List String) : List LineChange :=
  diffLinesGo (olds.length + news.length) olds news

/-- The line list of a file content, as `computeUnifiedDiff` produces it
from a change `value`: split on the line terminator and drop the final
empty fragment left by a terminating newline
(`if (lines[lines.length-1] === '') lines.pop()`). -/
def linesOf (s : String) : List String :=
  let ls := splitLinesStr s
  if ls.getLast? = some "" then ls.dropLast else ls

/-- The numbering loop of `computeUnifiedDiff`
(`kb-diff/route.js`): walks the changes keeping an old-file and a
new-file line counter; additions and context are numbered in the new
content, deletions in the old content. -/
def numberChanges : List LineChange → Nat → Nat → List DiffOp
  | [], _, _ => []
  | c :: rest, oldLineNum, newLineNum =>
    if c.added then
      ⟨"add", c.value, newLineNum⟩ :: numberChanges rest oldLineNum (newLineNum + 1)
    else if c.removed then
      ⟨"del", c.value, oldLineNum⟩ :: numberChanges rest (oldLineNum + 1) newLineNum
    else
      ⟨"ctx", c.value, newLineNum⟩ :: numberChanges rest (oldLineNum + 1) (newLineNum + 1)

/-- `computeUnifiedDiff(oldContent, newContent, filename)` of
`web/app/api/kb-diff/route.js`: LCS line diff of the two contents with
line numbers assigned by `numberChanges`, counters starting at 1.
(The unused `filename` parameter of the source is dropped.) -/
def computeUnifiedDiff (oldContent newContent : String) : List DiffOp :=
  numberChanges (diffLinesModel (linesOf oldContent) (linesOf newContent)) 1 1

/-- One directory entry of a knowledge-base tree, as `fs.readdir(dir,
{withFileTypes: true})` reports it: a name, whether it is a regular
file, and (for files) its byte content read by `fs.readFile(..,
'utf8')`. -/
structure Entry where
  name : String
  isFile : Bool
  content : String
deriving Repr, DecidableEq

/-- A directory listing: the entries in filesystem enumeration order. -/
abbrev Listing := List Entry

/-- The filter applied to every directory entry by `kb-diff`,
`kb-export` and `knowledge-base` routes:
`entry.isFile() && entry.name.endsWith('.md')`. -/
def isMdFile (e : Entry) : Bool :=
  e.isFile && strEndsWith e.name ".md"

/-- The markdown file entries of a listing. -/
def mdEntries (t : Listing) : Listing :=
  t.filter isMdFile

/-- The name set (`userFiles` / `agentFiles` in `kb-diff/route.js`)
built from a listing: names of the markdown file entries, in
enumeration order (a JS `Set` iterates in insertion order). -/
def fileNames (t : Listing) : List String :=
  (mdEntries t).map (·.name)

/-- `fs.readFile(path.join(dir, name), 'utf8')` against a listing:
content of the entry with the given name (first match; names in a real
directory are unique), empty for a missing entry. -/
def readFileIn (t : Listing) (n : String) : String :=
  match t.find? (fun e => e.name == n) with
  | some e => e.content
  | none => ""

/-- `fs.existsSync(path.join(dir, name))` against a listing. -/
def hasEntry (t : Listing) (n : String) : Bool :=
  t.any (fun e => e.name == n)

/-- `fs.writeFile(path.join(dir, name), content, 'utf8')` against a
listing: replaces the content of an existing entry, otherwise appends a
new file entry. -/
def writeFileIn (t : Listing) (n content : String) : Listing :=
  if hasEntry t n then
    t.map (fun e => if e.name == n then { e with content := content } else e)
  else
    t ++ [⟨n, true, content⟩]

/-- `fs.unlink(path.join(dir, name))` against a listing. -/
def unlinkIn (t : Listing) (n : String) : Listing :=
  t.filter (fun e => !(e.name == n))

/-- One `ChangeRecord` pushed onto `changedFiles` by the `kb-diff` GET
handler.  The `agentPath`/`userPath` fields of the source (absolute
path strings derived from the two directory roots) are omitted: they
are determined by the filename and the fixed roots. -/
structure ChangeRecord where
  filename : String
  status : String
  diff : List DiffOp
  oldContent : String
  newContent : String
deriving Repr, DecidableEq

/-- The first scan loop of the `kb-diff` GET handler
(`web/app/api/kb-diff/route.js`), as a function of the two directory
listings (`agentT` = working/agent tree under `input_dir`, `userT` =
authoritative/user tree under the project directory): files in the
agent name set but missing from the user name set, pushed as `added`
in agent enumeration order. -/
def addedRecords (agentT userT : Listing) : List ChangeRecord :=
  ((fileNames agentT).filter (fun n => decide (n ∉ fileNames userT))).map (fun n =>
    ⟨n, "added", computeUnifiedDiff "" (readFileIn agentT n), "", readFileIn agentT n⟩)

/-- The second loop of the `kb-diff` GET handler: files in the user
name set but missing from the agent name set, pushed as `deleted` in
user enumeration order. -/
def deletedRecords (agentT userT : Listing) : List ChangeRecord :=
  ((fileNames userT).filter (fun n => decide (n ∉ fileNames agentT))).map (fun n =>
    ⟨n, "deleted", computeUnifiedDiff (readFileIn userT n) "", readFileIn userT n, ""⟩)

/-- The third loop of the `kb-diff` GET handler: files in both name
sets whose contents differ, pushed as `modified` in user enumeration
order; byte-identical files are omitted entirely. -/
def modifiedRecords (agentT userT : Listing) : List ChangeRecord :=
  ((fileNames userT).filter (fun n => decide (n ∈ fileNames agentT))).filterMap (fun n =>
    if readFileIn userT n ≠ readFileIn agentT n then
      some ⟨n, "modified", computeUnifiedDiff (readFileIn userT n) (readFileIn agentT n),
            readFileIn userT n, readFileIn agentT n⟩
    else
      none)

/-- `changedFiles` as returned by the `kb-diff` GET handler: the three
scan loops push added, then deleted, then modified records, each group
in filesystem enumeration order.  No sorting is applied anywhere in
the handler. -/
def diffTrees (agentT userT : Listing) : List ChangeRecord :=
  addedRecords agentT userT ++ deletedRecords agentT userT ++ modifiedRecords agentT userT

/-- Which of the two knowledge-base trees a filesystem operation
touches: `user` is the authoritative tree under
`projects/<name>/knowledge_base`, `agent` the working tree under
`<input_dir>/knowledge_base`. -/
inductive TreeTag where
  | user
  | agent
deriving Repr, DecidableEq

/-- A filesystem operation performed by an accept/reject handler, in
program order.  `statConfig`/`readConfig` touch the project
configuration file `project.yaml`; all other operations touch one of
the two knowledge-base trees. -/
inductive FsOp where
  | statConfig
  | readConfig
  | statDir (t : TreeTag)
  | mkdirDir (t : TreeTag)
  | statFile (t : TreeTag) (name : String)
  | readFileOp (t : TreeTag) (name : String)
  | writeFileOp (t : TreeTag) (name : String)
  | unlinkOp (t : TreeTag) (name : String)
deriving Repr, DecidableEq

/-- An operation that touches only the project configuration, not a
knowledge-base tree. -/
def FsOp.isConfigOnly : FsOp → Bool
  | .statConfig => true
  | .readConfig => true
  | _ => false

/-- The state the accept/reject handlers act on: the two knowledge-base
directories, each `none` when the directory does not exist and
`some listing` otherwise. -/
structure KbState where
  user : Option Listing
  agent : Option Listing
deriving Repr, DecidableEq

/-- The project configuration as the handlers consume it: `none` when
`project.yaml` is missing, `some none` when it parses without an
`input_dir` key, `some (some d)` when `input_dir: d` is present. -/
abbrev ProjectConfig := Option (Option String)

/-- Responses of the `kb-accept-file` / `kb-reject-file` POST
handlers. -/
inductive KbResp where
  | missingFilename
  | configNotFound
  | noInputDir
  | invalidFilename
  | okAccepted (filename : String)
  | okRejected (filename : String)
deriving Repr, DecidableEq

/-- Result of one accept/reject call: the HTTP-level response, the
resulting state of the two trees, and the trace of filesystem
operations performed, in order. -/
structure KbResult where
  resp : KbResp
  state : KbState
  trace : List FsOp
deriving Repr, DecidableEq

/-- The security check of both reconciliation handlers:
`filename.includes('..') || filename.includes('/') ||
filename.includes('\\')`. -/
def badFilename (filename : String) : Bool :=
  strIncludes filename ".." || strIncludes filename "/" || strIncludes filename "\\"

/-- The `kb-accept-file` POST handler (`src/unnamed/part_002`): after
the missing-filename check it stats and reads `project.yaml`, validates
the filename, ensures the user knowledge-base directory exists, and
then makes the agent's state authoritative for that one file — copying
the agent file onto the user tree when the agent has it, otherwise
unlinking the user file if present. -/
def acceptPost (cfg : ProjectConfig) (filename : String) (st : KbState) : KbResult :=
  if filename = "" then
    ⟨.missingFilename, st, []⟩
  else
    match cfg with
    | none => ⟨.configNotFound, st, [.statConfig]⟩
    | some none => ⟨.noInputDir, st, [.statConfig, .readConfig]⟩
    | some (some _) =>
      if badFilename filename then
        ⟨.invalidFilename, st, [.statConfig, .readConfig]⟩
      else
        let pre : List FsOp :=
          match st.user with
          | none => [.statConfig, .readConfig, .statDir .user, .mkdirDir .user]
          | some _ => [.statConfig, .readConfig, .statDir .user]
        let user0 : Listing := st.user.getD []
        let agent0 := st.agent.getD []
        if hasEntry agent0 filename then
          let content := readFileIn agent0 filename
          ⟨.okAccepted filename,
           { st with user := some (writeFileIn user0 filename content) },
           pre ++ ([.statFile .agent filename, .readFileOp .agent filename,
                   .writeFileOp .user filename] : List FsOp)⟩
        else if hasEntry user0 filename then
          ⟨.okAccepted filename,
           { st with user := some (unlinkIn user0 filename) },
           pre ++ ([.statFile .agent filename, .statFile .user filename,
                   .unlinkOp .user filename] : List FsOp)⟩
        else
          ⟨.okAccepted filename,
           { st with user := some user0 },
           pre ++ ([.statFile .agent filename, .statFile .user filename] : List FsOp)⟩

/-- The `kb-reject-file` POST handler (`src/unnamed/part_003`): the
mirror image of `acceptPost` — it ensures the agent knowledge-base
directory exists and then makes the user's state authoritative for that
one file in the agent (working) tree. -/
def rejectPost (cfg : ProjectConfig) (filename : String) (st : KbState) : KbResult :=
  if filename = "" then
    ⟨.missingFilename, st, []⟩
  else
    match cfg with
    | none => ⟨.configNotFound, st, [.statConfig]⟩
    | some none => ⟨.noInputDir, st, [.statConfig, .readConfig]⟩
    | some (some _) =>
      if badFilename filename then
        ⟨.invalidFilename, st, [.statConfig, .readConfig]⟩
      else
        let pre : List FsOp :=
          match st.agent with
          | none => [.statConfig, .readConfig, .statDir .agent, .mkdirDir .agent]
          | some _ => [.statConfig, .readConfig, .statDir .agent]
        let agent0 : Listing := st.agent.getD []
        let user0 := st.user.getD []
        if hasEntry user0 filename then
          let content := readFileIn user0 filename
          ⟨.okRejected filename,
           { st with agent := some (writeFileIn agent0 filename content) },
           pre ++ ([.statFile .user filename, .readFileOp .user filename,
                   .writeFileOp .agent filename] : List FsOp)⟩
        else if hasEntry agent0 filename then
          ⟨.okRejected filename,
           { st with agent := some (unlinkIn agent0 filename) },
           pre ++ ([.statFile .user filename, .statFile .agent filename,
                   .unlinkOp .agent filename] : List FsOp)⟩
        else
          ⟨.okRejected filename,
           { st with agent := some agent0 },
           pre ++ ([.statFile .user filename, .statFile .agent filename] : List FsOp)⟩

/-- Responses of the `kb-export` GET handler. -/
inductive ExportResp where
  | configNotFound
  | noInputDir
  | kbNotFound
  | noFiles
  | ok (content : String)
deriving Repr, DecidableEq

/-- The comparator `(a, b) => a.name.localeCompare(b.name)` of
`kb-export/route.js`, modelled as lexicographic string order on the
names. -/
def entryLe (a b : Entry) : Prop :=
  strLeB a.name b.name = true

instance : DecidableRel entryLe :=
  fun a b => (inferInstance : Decidable (strLeB a.name b.name = true))

/-- The `kb-export` GET handler (`web/app/api/kb-export/route.js`): it
resolves the knowledge base as `path.join(projectData.input_dir,
'knowledge_base')` — the agent (working) tree — filters its markdown
file entries, sorts them by filename (the `Array.sort` call with the
`localeCompare` comparator is modelled as an insertion sort by
`entryLe`), reads each file and joins the contents with a newline
separator.  (The timestamped download filename is presentation only
and is omitted.)  The handler never consults the
authoritative tree, so it takes only the state's agent component into
account. -/
def exportGet (cfg : ProjectConfig) (st : KbState) : ExportResp :=
  match cfg with
  | none => .configNotFound
  | some none => .noInputDir
  | some (some _) =>
    match st.agent with
    | none => .kbNotFound
    | some l =>
      let mdFiles := List.insertionSort entryLe (mdEntries l)
      if mdFiles.length = 0 then
        .noFiles
      else
        .ok (joinWith "\n" (mdFiles.map (fun e => readFileIn l e.name)))

/-- The spawned agent child process as the session store sees it:
whether it has terminated and whether `kill()` was called.  The
`stdinThrows` flag models the state of its input stream — `true` when a
synchronous `stdin.write` raises (the stream is destroyed), `false`
when the write is accepted. -/
structure Child where
  exited : Bool
  killed : Bool
  stdinThrows : Bool
deriving Repr, DecidableEq

/-- An attached subscriber (a `WritableStreamDefaultWriter` held in the
session's `clients` set).  `cid` identifies the writer; `failing`
models a writer whose `write` calls throw. -/
structure Client where
  cid : Nat
  failing : Bool
deriving Repr, DecidableEq

/-- One session record of `TriageSessionStore`
(`web/app/api/triage/sessionStore.js`):
`{ child, logs: string[], clients: Set<writer>, status }`. -/
structure Sess where
  child : Option Child
  logs : List String
  clients : List Client
  status : String
deriving Repr, DecidableEq

/-- The store's `sessions` map, keyed by generated session id. -/
abbrev Store := List (String × Sess)

/-- `getSession(id)`: `this.sessions.get(id) || null`. -/
def getSession (store : Store) (id : String) : Option Sess :=
  (store.find? (fun p => p.fst == id)).map (·.snd)

/-- `Map.set(id, sess)` for a key already present: replace that
session's record. -/
def setSession (store : Store) (id : String) (s : Sess) : Store :=
  store.map (fun p => if p.fst == id then (p.fst, s) else p)

/-- One frame written over the event-stream transport: the
JSON payloads `{type:'log', line}` and `{type:'status', status, code}`
of `sessionStore.js` and the stream GET handler. -/
inductive Frame where
  | log (line : String)
  | status (status : String) (code : Option Int)
deriving Repr, DecidableEq

/-- One `writer.write(...)` call wrapped in the store's per-client
`try { ... } catch {}`: the write attempt of a failing writer throws
and the exception is swallowed; the pair records the targeted client
and whether the write succeeded.  Modelled as the catch of an
`Except`-valued write so the broadcast step is total for every
client. -/
def writeAttempt (c : Client) : Client × Bool :=
  match (if c.failing then Except.error () else Except.ok ()) with
  | .ok _ => (c, true)
  | .error _ => (c, false)

/-- The broadcast loop `for (const writer of sess.clients) { try {
writer.write(...) } catch {} }`: every attached client is attempted in
order, each attempt individually caught. -/
def broadcast : List Client → List (Client × Bool)
  | [] => []
  | c :: rest => writeAttempt c :: broadcast rest

/-- `appendLog(id, line)` of `sessionStore.js`: if the session exists,
push the line onto its log buffer and broadcast a log frame to every
attached client; if not, return unchanged.  The result carries the
updated store and the list of delivery attempts made. -/
def appendLog (store : Store) (id : String) (line : String) :
    Store × List (Client × Bool) :=
  match getSession store id with
  | none => (store, [])
  | some sess =>
    (setSession store id { sess with logs := sess.logs ++ [line] },
     broadcast sess.clients)

/-- `setStatus(id, status, code)` of `sessionStore.js`: if the session
exists, overwrite its status and broadcast a status frame to every
attached client. -/
def setStatus (store : Store) (id : String) (status : String) (_code : Option Int) :
    Store × List (Client × Bool) :=
  match getSession store id with
  | none => (store, [])
  | some sess =>
    (setSession store id { sess with status := status },
     broadcast sess.clients)

/-- `addClient(id, writer)` of `sessionStore.js`: `false` when the
session does not exist; otherwise add the writer to the session's
client set (a JS `Set`: adding a member already present is a no-op). -/
def addClient (store : Store) (id : String) (w : Client) : Bool × Store :=
  match getSession store id with
  | none => (false, store)
  | some sess =>
    (true,
     setSession store id
       { sess with clients := if w ∈ sess.clients then sess.clients else sess.clients ++ [w] })

/-- `getLogs(id)` of `sessionStore.js`. -/
def getLogs (store : Store) (id : String) : List String :=
  match getSession store id with
  | some sess => sess.logs
  | none => []

/-- Result of the event-stream GET handler. -/
inductive StreamResp where
  | missingSession
  | invalidSession
  | ok (frames : List Frame) (attached : Bool)
deriving Repr, DecidableEq

/-- The event-stream GET handler (second half of
`web/app/api/synthesize/start/route.js`): resolves the session, then —
inside a single `try` — replays every buffered log line as a log frame
to the new writer, writes one status frame carrying the session's
current status (no `code` field), and finally registers the writer via
`addClient`.  A throwing writer aborts the `try` at its first write, so
nothing is delivered and the writer is never registered; the handler
itself still returns the open response.  The 20-second keep-alive
interval emits comment frames only and is not part of the frame
sequence. -/
def streamGet (store : Store) (sessionId : String) (w : Client) :
    StreamResp × Store :=
  let sid := trimStr sessionId
  if sid = "" then
    (.missingSession, store)
  else
    match getSession store sid with
    | none => (.invalidSession, store)
    | some sess =>
      if w.failing then
        (.ok [] false, store)
      else
        let frames := sess.logs.map Frame.log ++ [Frame.status sess.status none]
        let (_, store') := addClient store sid w
        (.ok frames true, store')

/-- Responses of the `synthesize/input` POST handler. -/
inductive InputResp where
  | missingSessionId
  | invalidSession
  | writeFailed
  | ok
deriving Repr, DecidableEq

/-- The `synthesize/input` POST handler as committed at
`web/app/api/synthesize/input/route.js`: resolves the session, rejects
only a missing session or a session without a child handle, then
writes `String(text) + '\n'` — the text verbatim plus one line
terminator — to the child's input stream inside a `try`.  The result
records the strings whose write was attempted, in order. -/
def inputPostRaw (store : Store) (sessionId text : String) :
    InputResp × List String :=
  let sid := trimStr sessionId
  if sid = "" then
    (.missingSessionId, [])
  else
    match getSession store sid with
    | none => (.invalidSession, [])
    | some sess =>
      match sess.child with
      | none => (.invalidSession, [])
      | some child =>
        if child.stdinThrows then
          (.writeFailed, [text ++ "\n"])
        else
          (.ok, [text ++ "\n"])

/-- `String(text).replace(/\n/g, '\\n')` — every line terminator of the
text replaced by the literal two-character sequence backslash-`n`. -/
def escapeNewlines (s : String) : String :=
  ⟨escapeNlChars s.data⟩

/-- The escaping variant of the input handler that the repository also
carries (second half of `web/app/api/synthesize/stop/route.js`, lines
32–55), whose comment reads "Replace newlines with literal \n string to
prevent input() from triggering on each line": identical to
`inputPostRaw` except that the text is passed through `escapeNewlines`
before the terminator is appended. -/
def inputPostEscaped (store : Store) (sessionId text : String) :
    InputResp × List String :=
  let sid := trimStr sessionId
  if sid = "" then
    (.missingSessionId, [])
  else
    match getSession store sid with
    | none => (.invalidSession, [])
    | some sess =>
      match sess.child with
      | none => (.invalidSession, [])
      | some child =>
        if child.stdinThrows then
          (.writeFailed, [escapeNewlines text ++ "\n"])
        else
          (.ok, [escapeNewlines text ++ "\n"])

/-- Number of occurrences of a character in a string. -/
def countChar (s : String) (c : Char) : Nat :=
  (s.toList.filter (fun x => x = c)).length

/-! ## Helper lemmas -/

theorem writeAttempt_eq (c : Client) : writeAttempt c = (c, !c.failing) := by
  cases h : c.failing <;> simp [writeAttempt, h]

theorem broadcast_eq_map (cs : List Client) :
    broadcast cs = cs.map (fun c => (c, !c.failing)) := by
  induction cs with
  | nil => rfl
  | cons c rest ih => simp [broadcast, writeAttempt_eq, ih]

theorem getSession_setSession_self {store : Store} {id : String} {sess : Sess}
    (s' : Sess) (hs : getSession store id = some sess) :
    getSession (setSession store id s') id = some s' := by
  unfold getSession at hs ⊢
  unfold setSession
  rw [List.find?_map]
  have hfun : ((fun p : String × Sess => p.fst == id) ∘
      (fun p : String × Sess => if p.fst == id then (p.fst, s') else p)) =
      (fun p : String × Sess => p.fst == id) := by
    funext p
    by_cases h : p.fst = id
    · simp [h]
    · simp [h]
  rw [hfun]
  cases hfind : store.find? (fun p => p.fst == id) with
  | none => rw [hfind] at hs; simp at hs
  | some q =>
    have hqid := List.find?_some hfind
    simp only [beq_iff_eq] at hqid
    simp [hfind, hqid]

theorem hasEntry_iff (t : Listing) (n : String) :
    hasEntry t n = true ↔ ∃ e ∈ t, e.name = n := by
  simp [hasEntry, List.any_eq_true]

theorem mem_fileNames (t : Listing) (n : String) :
    n ∈ fileNames t ↔ ∃ e ∈ t, isMdFile e = true ∧ e.name = n := by
  simp only [fileNames, mdEntries, List.mem_map, List.mem_filter]
  constructor
  · rintro ⟨e, ⟨he, hmd⟩, hn⟩
    exact ⟨e, he, hmd, hn⟩
  · rintro ⟨e, he, hmd, hn⟩
    exact ⟨e, ⟨he, hmd⟩, hn⟩

theorem hasEntry_of_mem_fileNames {t : Listing} {n : String}
    (h : n ∈ fileNames t) : hasEntry t n = true := by
  obtain ⟨e, he, _, hn⟩ := (mem_fileNames t n).mp h
  exact (hasEntry_iff t n).mpr ⟨e, he, hn⟩

theorem not_mem_fileNames_of_not_hasEntry {t : Listing} {n : String}
    (h : hasEntry t n = false) : n ∉ fileNames t := by
  intro hmem
  rw [hasEntry_of_mem_fileNames hmem] at h
  exact Bool.true_eq_false.mp h

theorem mem_fileNames_iff_of_hasEntry {t : Listing} {n : String}
    (hall : ∀ e ∈ t, e.isFile = true) (ht : hasEntry t n = true) :
    n ∈ fileNames t ↔ strEndsWith n ".md" = true := by
  obtain ⟨e, he, hn⟩ := (hasEntry_iff t n).mp ht
  rw [mem_fileNames]
  constructor
  · rintro ⟨e', he', hmd, hn'⟩
    simp only [isMdFile, Bool.and_eq_true] at hmd
    rw [← hn']
    exact hmd.2
  · intro hmd
    refine ⟨e, he, ?_, hn⟩
    simp [isMdFile, hall e he, hn, hmd]

theorem hasEntry_writeFileIn_self (t : Listing) (n c : String) :
    hasEntry (writeFileIn t n c) n = true := by
  unfold writeFileIn
  by_cases h : hasEntry t n = true
  · rw [if_pos h]
    rw [hasEntry_iff] at h ⊢
    obtain ⟨e, he, hn⟩ := h
    refine ⟨if e.name == n then { e with content := c } else e, List.mem_map_of_mem _ he, ?_⟩
    simp [hn]
  · rw [if_neg h]
    rw [hasEntry_iff]
    exact ⟨⟨n, true, c⟩, by simp⟩

theorem hasEntry_unlinkIn_self (t : Listing) (n : String) :
    hasEntry (unlinkIn t n) n = false := by
  unfold unlinkIn hasEntry
  rw [List.any_eq_false]
  intro e he
  rw [List.mem_filter] at he
  simpa using he.2

theorem writeFileIn_writeFileIn (t : Listing) (n c : String) :
    writeFileIn (writeFileIn t n c) n c = writeFileIn t n c := by
  have hself := hasEntry_writeFileIn_self t n c
  unfold writeFileIn at hself ⊢
  by_cases h : hasEntry t n = true
  · rw [if_pos h] at hself ⊢
    rw [if_pos hself, List.map_map]
    apply List.map_congr_left
    intro e _
    by_cases he : e.name = n <;> simp [he]
  · rw [if_neg h] at hself ⊢
    rw [if_pos hself, List.map_append]
    have hnone : ∀ e ∈ t, e.name ≠ n := by
      intro e he hn
      exact h ((hasEntry_iff t n).mpr ⟨e, he, hn⟩)
    congr 1
    · rw [show t = List.map id t by rw [List.map_id]]
      rw [List.map_map]
      apply List.map_congr_left
      intro e he
      simp [hnone e he]
    · simp

theorem hasEntry_unlink_or_same (t : Listing) (n : String)
    (h : hasEntry t n = false) : unlinkIn t n = t := by
  unfold unlinkIn
  apply List.filter_eq_self.mpr
  intro e he
  have : e.name ≠ n := fun hn => by
    rw [(hasEntry_iff t n).mpr ⟨e, he, hn⟩] at h
    exact Bool.true_eq_false.mp h
  simp [this]

theorem find?_name_none_of_not_hasEntry {t : Listing} {n : String}
    (h : ¬ hasEntry t n = true) : t.find? (fun e => e.name == n) = none := by
  rw [List.find?_eq_none]
  intro e he
  simp only [beq_iff_eq]
  intro hn
  exact h ((hasEntry_iff t n).mpr ⟨e, he, hn⟩)

theorem readFileIn_writeFileIn_self (t : Listing) (n c : String) :
    readFileIn (writeFileIn t n c) n = c := by
  unfold writeFileIn readFileIn
  by_cases h : hasEntry t n = true
  · rw [if_pos h, List.find?_map]
    have hfun : ((fun e : Entry => e.name == n) ∘
        (fun e : Entry => if e.name == n then { e with content := c } else e)) =
        (fun e : Entry => e.name == n) := by
      funext e
      by_cases he : e.name = n <;> simp [he]
    rw [hfun]
    cases hfind : t.find? (fun e => e.name == n) with
    | none =>
      exfalso
      rw [List.find?_eq_none] at hfind
      obtain ⟨e, he, hn⟩ := (hasEntry_iff t n).mp h
      exact hfind e he (by simp [hn])
    | some e =>
      have hen := List.find?_some hfind
      simp only [beq_iff_eq] at hen
      simp [hen]
  · rw [if_neg h, List.find?_append, find?_name_none_of_not_hasEntry h]
    simp

theorem fileNames_writeFileIn_of_hasEntry {t : Listing} {n : String} (c : String)
    (h : hasEntry t n = true) : fileNames (writeFileIn t n c) = fileNames t := by
  unfold writeFileIn
  rw [if_pos h]
  unfold fileNames mdEntries
  rw [List.filter_map, List.map_map]
  have hfun : (isMdFile ∘ fun e : Entry =>
      if e.name == n then { e with content := c } else e) = isMdFile := by
    funext e
    by_cases he : e.name = n <;> simp [he, isMdFile]
  rw [hfun]
  apply List.map_congr_left
  intro e he
  rw [List.mem_filter] at he
  by_cases hn : e.name = n <;> simp [hn]

theorem mem_fileNames_writeFileIn_append {t : Listing} {n : String} (c : String)
    (h : ¬ hasEntry t n = true) :
    fileNames (writeFileIn t n c) =
      fileNames t ++ (if strEndsWith n ".md" then [n] else []) := by
  unfold writeFileIn
  rw [if_neg h]
  unfold fileNames mdEntries
  rw [List.filter_append, List.map_append]
  congr 1
  by_cases hmd : strEndsWith n ".md" = true <;> simp [isMdFile, hmd]

theorem not_mem_fileNames_unlinkIn (t : Listing) (n : String) :
    n ∉ fileNames (unlinkIn t n) :=
  not_mem_fileNames_of_not_hasEntry (hasEntry_unlinkIn_self t n)

theorem writeFileIn_allFiles {t : Listing}
    (hall : ∀ e ∈ t, e.isFile = true) (n c : String) :
    ∀ e ∈ writeFileIn t n c, e.isFile = true := by
  intro e he
  unfold writeFileIn at he
  by_cases h : hasEntry t n = true
  · rw [if_pos h] at he
    rw [List.mem_map] at he
    obtain ⟨e', he', heq⟩ := he
    by_cases hn : e'.name = n
    · rw [← heq]
      simp [hn, hall e' he']
    · rw [← heq]
      simp [hn, hall e' he']
  · rw [if_neg h, List.mem_append] at he
    rcases he with he | he
    · exact hall e he
    · simp only [List.mem_singleton] at he
      rw [he]

theorem map_filename_addedRecords (agentT userT : Listing) :
    (addedRecords agentT userT).map ChangeRecord.filename =
      (fileNames agentT).filter (fun n => decide (n ∉ fileNames userT)) := by
  unfold addedRecords
  rw [List.map_map]
  exact List.map_id ((fileNames agentT).filter (fun n => decide (n ∉ fileNames userT)))

theorem map_filename_deletedRecords (agentT userT : Listing) :
    (deletedRecords agentT userT).map ChangeRecord.filename =
      (fileNames userT).filter (fun n => decide (n ∉ fileNames agentT)) := by
  unfold deletedRecords
  rw [List.map_map]
  exact List.map_id ((fileNames userT).filter (fun n => decide (n ∉ fileNames agentT)))

theorem map_filename_modifiedRecords (agentT userT : Listing) :
    (modifiedRecords agentT userT).map ChangeRecord.filename =
      ((fileNames userT).filter (fun n => decide (n ∈ fileNames agentT))).filter
        (fun n => decide (readFileIn userT n ≠ readFileIn agentT n)) := by
  unfold modifiedRecords
  generalize (fileNames userT).filter (fun n => decide (n ∈ fileNames agentT)) = l
  induction l with
    | nil => rfl
    | cons n rest ih =>
      by_cases h : readFileIn userT n = readFileIn agentT n
      · have h1 : (if readFileIn userT n ≠ readFileIn agentT n then
            some (⟨n, "modified",
              computeUnifiedDiff (readFileIn userT n) (readFileIn agentT n),
              readFileIn userT n, readFileIn agentT n⟩ : ChangeRecord)
            else none) = none := by
          rw [if_neg]
          simp [h]
        have h2 : decide (readFileIn userT n ≠ readFileIn agentT n) = false := by
          simp [h]
        rw [List.filterMap_cons, h1, List.filter_cons, h2]
        simpa using ih
      · have h1 : (if readFileIn userT n ≠ readFileIn agentT n then
            some (⟨n, "modified",
              computeUnifiedDiff (readFileIn userT n) (readFileIn agentT n),
              readFileIn userT n, readFileIn agentT n⟩ : ChangeRecord)
            else none) = some (⟨n, "modified",
              computeUnifiedDiff (readFileIn userT n) (readFileIn agentT n),
              readFileIn userT n, readFileIn agentT n⟩ : ChangeRecord) := by
          rw [if_pos h]
        have h2 : decide (readFileIn userT n ≠ readFileIn agentT n) = true := by
          simp [h]
        rw [List.filterMap_cons, h1, List.filter_cons, h2]
        simpa using ih

/-- The filenames of a `diffTrees` result, split by status: added names
(agent-only), then deleted names (user-only), then modified names
(shared with differing content). -/
theorem map_filename_diffTrees (agentT userT : Listing) :
    (diffTrees agentT userT).map ChangeRecord.filename =
      ((fileNames agentT).filter (fun n => decide (n ∉ fileNames userT))) ++
      ((fileNames userT).filter (fun n => decide (n ∉ fileNames agentT))) ++
      (((fileNames userT).filter (fun n => decide (n ∈ fileNames agentT))).filter
        (fun n => decide (readFileIn userT n ≠ readFileIn agentT n))) := by
  unfold diffTrees
  rw [List.map_append, List.map_append, map_filename_addedRecords,
    map_filename_deletedRecords, map_filename_modifiedRecords]

theorem fileNames_nodup {t : Listing} (h : (t.map Entry.name).Nodup) :
    (fileNames t).Nodup := by
  unfold fileNames mdEntries
  exact h.sublist (List.Sublist.map Entry.name (List.filter_sublist t))

theorem find?_name_perm {t t' : Listing} (h : t.Perm t')
    (hn : (t.map Entry.name).Nodup) (n : String) :
    t.find? (fun e => e.name == n) = t'.find? (fun e => e.name == n) := by
  cases hf : t.find? (fun e => e.name == n) with
  | none =>
    rw [List.find?_eq_none] at hf
    symm
    rw [List.find?_eq_none]
    intro e he
    exact hf e (h.mem_iff.mpr he)
  | some e =>
    have he : e ∈ t := List.mem_of_find?_eq_some hf
    have hen := List.find?_some hf
    cases hf' : t'.find? (fun e => e.name == n) with
    | none =>
      exfalso
      rw [List.find?_eq_none] at hf'
      exact hf' e (h.mem_iff.mp he) hen
    | some e' =>
      have he' : e' ∈ t := h.mem_iff.mpr (List.mem_of_find?_eq_some hf')
      have hen' := List.find?_some hf'
      simp only [beq_iff_eq] at hen hen'
      have heq : e' = e :=
        List.inj_on_of_nodup_map hn he' he (by rw [hen', hen])
      rw [heq]

theorem readFileIn_perm {t t' : Listing} (h : t.Perm t')
    (hn : (t.map Entry.name).Nodup) (n : String) :
    readFileIn t n = readFileIn t' n := by
  unfold readFileIn
  rw [find?_name_perm h hn n]

theorem fileNames_perm {t t' : Listing} (h : t.Perm t') :
    (fileNames t).Perm (fileNames t') :=
  (h.filter isMdFile).map Entry.name

theorem addedRecords_perm {agentT agentT' userT userT' : Listing}
    (ha : (agentT.map Entry.name).Nodup)
    (hpa : agentT.Perm agentT') (hpu : userT.Perm userT') :
    (addedRecords agentT userT).Perm (addedRecords agentT' userT') := by
  unfold addedRecords
  have hp : (fun n => decide (n ∉ fileNames userT)) =
      (fun n => decide (n ∉ fileNames userT')) := by
    funext n
    exact decide_eq_decide.mpr (not_congr (fileNames_perm hpu).mem_iff)
  have hf : (fun n => (⟨n, "added", computeUnifiedDiff "" (readFileIn agentT n),
      "", readFileIn agentT n⟩ : ChangeRecord)) =
      (fun n => (⟨n, "added", computeUnifiedDiff "" (readFileIn agentT' n),
      "", readFileIn agentT' n⟩ : ChangeRecord)) := by
    funext n
    rw [readFileIn_perm hpa ha n]
  rw [hp, hf]
  exact ((fileNames_perm hpa).filter _).map _

theorem deletedRecords_perm {agentT agentT' userT userT' : Listing}
    (hu : (userT.map Entry.name).Nodup)
    (hpa : agentT.Perm agentT') (hpu : userT.Perm userT') :
    (deletedRecords agentT userT).Perm (deletedRecords agentT' userT') := by
  unfold deletedRecords
  have hp : (fun n => decide (n ∉ fileNames agentT)) =
      (fun n => decide (n ∉ fileNames agentT')) := by
    funext n
    exact decide_eq_decide.mpr (not_congr (fileNames_perm hpa).mem_iff)
  have hf : (fun n => (⟨n, "deleted", computeUnifiedDiff (readFileIn userT n) "",
      readFileIn userT n, ""⟩ : ChangeRecord)) =
      (fun n => (⟨n, "deleted", computeUnifiedDiff (readFileIn userT' n) "",
      readFileIn userT' n, ""⟩ : ChangeRecord)) := by
    funext n
    rw [readFileIn_perm hpu hu n]
  rw [hp, hf]
  exact ((fileNames_perm hpu).filter _).map _

theorem modifiedRecords_perm {agentT agentT' userT userT' : Listing}
    (ha : (agentT.map Entry.name).Nodup) (hu : (userT.map Entry.name).Nodup)
    (hpa : agentT.Perm agentT') (hpu : userT.Perm userT') :
    (modifiedRecords agentT userT).Perm (modifiedRecords agentT' userT') := by
  unfold modifiedRecords
  have hp : (fun n => decide (n ∈ fileNames agentT)) =
      (fun n => decide (n ∈ fileNames agentT')) := by
    funext n
    exact decide_eq_decide.mpr (fileNames_perm hpa).mem_iff
  have hf : (fun n => if readFileIn userT n ≠ readFileIn agentT n then
      some (⟨n, "modified", computeUnifiedDiff (readFileIn userT n) (readFileIn agentT n),
        readFileIn userT n, readFileIn agentT n⟩ : ChangeRecord) else none) =
      (fun n => if readFileIn userT' n ≠ readFileIn agentT' n then
      some (⟨n, "modified", computeUnifiedDiff (readFileIn userT' n) (readFileIn agentT' n),
        readFileIn userT' n, readFileIn agentT' n⟩ : ChangeRecord) else none) := by
    funext n
    rw [readFileIn_perm hpu hu n, readFileIn_perm hpa ha n]
  rw [hp, hf]
  exact ((fileNames_perm hpu).filter _).filterMap _

/-- The user-tree update performed by the accepted branch of
`acceptPost` (copy the agent file over, else unlink, else leave),
factored out for reasoning about repeated calls. -/
def acceptCoreUser (agent0 user0 : Listing) (f : String) : Listing :=
  if hasEntry agent0 f then writeFileIn user0 f (readFileIn agent0 f)
  else if hasEntry user0 f then unlinkIn user0 f
  else user0

/-- The agent-tree update performed by the accepted branch of
`rejectPost`. -/
def rejectCoreAgent (user0 agent0 : Listing) (f : String) : Listing :=
  if hasEntry user0 f then writeFileIn agent0 f (readFileIn user0 f)
  else if hasEntry agent0 f then unlinkIn agent0 f
  else agent0

theorem acceptPost_ok_state (d f : String) (st : KbState)
    (hf : f ≠ "") (hbad : badFilename f = false) :
    (acceptPost (some (some d)) f st).state.user =
      some (acceptCoreUser (st.agent.getD []) (st.user.getD []) f) ∧
    (acceptPost (some (some d)) f st).state.agent = st.agent := by
  unfold acceptPost acceptCoreUser
  rw [if_neg hf]
  have hbad' : ¬ badFilename f = true := by rw [hbad]; simp
  rw [if_neg hbad']
  cases hu : st.user with
  | none =>
    by_cases hA : hasEntry (st.agent.getD []) f = true
    · simp [hu, hA]
    · by_cases hU : hasEntry ([] : Listing) f = true
      · simp [hu, hA, hU]
      · simp [hu, hA, hU]
  | some u0 =>
    by_cases hA : hasEntry (st.agent.getD []) f = true
    · simp [hu, hA]
    · by_cases hU : hasEntry u0 f = true
      · simp [hu, hA, hU]
      · simp [hu, hA, hU]

theorem rejectPost_ok_state (d f : String) (st : KbState)
    (hf : f ≠ "") (hbad : badFilename f = false) :
    (rejectPost (some (some d)) f st).state.agent =
      some (rejectCoreAgent (st.user.getD []) (st.agent.getD []) f) ∧
    (rejectPost (some (some d)) f st).state.user = st.user := by
  unfold rejectPost rejectCoreAgent
  rw [if_neg hf]
  have hbad' : ¬ badFilename f = true := by rw [hbad]; simp
  rw [if_neg hbad']
  cases ha : st.agent with
  | none =>
    by_cases hU : hasEntry (st.user.getD []) f = true
    · simp [ha, hU]
    · by_cases hA : hasEntry ([] : Listing) f = true
      · simp [ha, hU, hA]
      · simp [ha, hU, hA]
  | some a0 =>
    by_cases hU : hasEntry (st.user.getD []) f = true
    · simp [ha, hU]
    · by_cases hA : hasEntry a0 f = true
      · simp [ha, hU, hA]
      · simp [ha, hU, hA]

theorem acceptCoreUser_idem (agent0 user0 : Listing) (f : String) :
    acceptCoreUser agent0 (acceptCoreUser agent0 user0 f) f =
      acceptCoreUser agent0 user0 f := by
  unfold acceptCoreUser
  by_cases hA : hasEntry agent0 f = true
  · rw [if_pos hA, if_pos hA, writeFileIn_writeFileIn]
  · rw [if_neg hA, if_neg hA]
    by_cases hU : hasEntry user0 f = true
    · rw [if_pos hU]
      rw [if_neg (by simp [hasEntry_unlinkIn_self])]
    · rw [if_neg hU, if_neg hU]

theorem rejectCoreAgent_idem (user0 agent0 : Listing) (f : String) :
    rejectCoreAgent user0 (rejectCoreAgent user0 agent0 f) f =
      rejectCoreAgent user0 agent0 f := by
  unfold rejectCoreAgent
  by_cases hU : hasEntry user0 f = true
  · rw [if_pos hU, if_pos hU, writeFileIn_writeFileIn]
  · rw [if_neg hU, if_neg hU]
    by_cases hA : hasEntry agent0 f = true
    · rw [if_pos hA]
      rw [if_neg (by simp [hasEntry_unlinkIn_self])]
    · rw [if_neg hA, if_neg hA]

theorem charToNat_inj {a b : Char} (h : a.toNat = b.toNat) : a = b := by
  apply Char.ext
  exact UInt32.toNat.inj h

theorem charsLe_trans (x : List Char) : ∀ y z : List Char,
    charsLe x y = true → charsLe y z = true → charsLe x z = true := by
  induction x with
  | nil => intro y z _ _; rfl
  | cons a as ih =>
    intro y z h1 h2
    cases y with
    | nil => simp [charsLe] at h1
    | cons b bs =>
      cases z with
      | nil => simp [charsLe] at h2
      | cons c cs =>
        simp only [charsLe] at h1 h2 ⊢
        by_cases hab : a = b
        · subst hab
          rw [if_pos rfl] at h1
          by_cases hbc : a = c
          · subst hbc
            rw [if_pos rfl] at h2 ⊢
            exact ih bs cs h1 h2
          · rw [if_neg hbc] at h2 ⊢
            exact h2
        · rw [if_neg hab] at h1
          have hlt1 : a.toNat < b.toNat := of_decide_eq_true h1
          by_cases hbc : b = c
          · subst hbc
            rw [if_neg hab]
            exact decide_eq_true hlt1
          · rw [if_neg hbc] at h2
            have hlt2 : b.toNat < c.toNat := of_decide_eq_true h2
            have hlt : a.toNat < c.toNat := Nat.lt_trans hlt1 hlt2
            have hac : ¬ a = c := by
              intro he
              subst he
              exact Nat.lt_irrefl _ hlt
            rw [if_neg hac]
            exact decide_eq_true hlt

theorem charsLe_total (x : List Char) : ∀ y : List Char,
    charsLe x y = true ∨ charsLe y x = true := by
  induction x with
  | nil => intro y; left; rfl
  | cons a as ih =>
    intro y
    cases y with
    | nil => right; rfl
    | cons b bs =>
      simp only [charsLe]
      by_cases hab : a = b
      · subst hab
        rw [if_pos rfl, if_pos rfl]
        exact ih bs
      · rw [if_neg hab, if_neg (Ne.symm hab)]
        rcases Nat.lt_or_ge a.toNat b.toNat with h | h
        · left; exact decide_eq_true h
        · have hne : b.toNat ≠ a.toNat := fun he => hab (charToNat_inj he.symm)
          right
          exact decide_eq_true (Nat.lt_of_le_of_ne h hne)

instance : IsTrans Entry entryLe :=
  ⟨fun _ _ _ h1 h2 => charsLe_trans _ _ _ h1 h2⟩

instance : IsTotal Entry entryLe :=
  ⟨fun _ _ => charsLe_total _ _⟩

theorem readFileIn_eq_content_of_mem {t : Listing} {e : Entry}
    (hn : (t.map Entry.name).Nodup) (he : e ∈ t) :
    readFileIn t e.name = e.content := by
  unfold readFileIn
  cases hf : t.find? (fun x => x.name == e.name) with
  | none =>
    exfalso
    rw [List.find?_eq_none] at hf
    exact hf e he (by simp)
  | some e' =>
    have he' : e' ∈ t := List.mem_of_find?_eq_some hf
    have hen := List.find?_some hf
    simp only [beq_iff_eq] at hen
    rw [List.inj_on_of_nodup_map hn he' he hen]

/-! ## Claims -/

/-- **C1.** For every reconciliation context (two directory listings
with distinct entry names, as a real directory guarantees), the
`kb-diff` GET result contains at most one `ChangeRecord` per filename
(the record filenames are pairwise distinct), and a file whose byte
content is identical in the working (agent) and authoritative (user)
trees never appears in the result. -/
theorem diffTrees_unique_and_omits_unchanged (agentT userT : Listing)
    (ha : (agentT.map Entry.name).Nodup) (hu : (userT.map Entry.name).Nodup) :
    ((diffTrees agentT userT).map ChangeRecord.filename).Nodup ∧
    ∀ n, n ∈ fileNames agentT → n ∈ fileNames userT →
      readFileIn agentT n = readFileIn userT n →
      n ∉ (diffTrees agentT userT).map ChangeRecord.filename := by
  rw [map_filename_diffTrees]
  constructor
  · apply List.Nodup.append
    · apply List.Nodup.append
      · exact (fileNames_nodup ha).filter _
      · exact (fileNames_nodup hu).filter _
      · intro x hx hx'
        rw [List.mem_filter] at hx hx'
        exact (decide_eq_true_eq.mp hx.2) hx'.1
    · exact ((fileNames_nodup hu).filter _).filter _
    · intro x hx hx'
      rw [List.mem_append] at hx
      rw [List.mem_filter] at hx'
      have hx'in := List.mem_filter.mp hx'.1
      rcases hx with hx | hx
      · rw [List.mem_filter] at hx
        exact (decide_eq_true_eq.mp hx.2) hx'in.1
      · rw [List.mem_filter] at hx
        exact (decide_eq_true_eq.mp hx.2) (decide_eq_true_eq.mp hx'in.2)
  · intro n hna hnu heq
    intro hmem
    rw [List.mem_append] at hmem
    rcases hmem with hmem | hmem
    · rw [List.mem_append] at hmem
      rcases hmem with hmem | hmem
      · rw [List.mem_filter] at hmem
        exact (decide_eq_true_eq.mp hmem.2) hnu
      · rw [List.mem_filter] at hmem
        exact (decide_eq_true_eq.mp hmem.2) hna
    · rw [List.mem_filter] at hmem
      exact (decide_eq_true_eq.mp hmem.2) heq.symm

/-- Witness for **C1**: concrete trees (one shared identical file, one
agent-only file, one user-only file, one modified file) satisfying the
distinct-names hypotheses. -/
theorem diffTrees_unique_and_omits_unchanged_witness :
    (([⟨"a.md", true, "same"⟩, ⟨"b.md", true, "new"⟩, ⟨"d.md", true, "v2"⟩] :
        Listing).map Entry.name).Nodup ∧
    (([⟨"a.md", true, "same"⟩, ⟨"c.md", true, "gone"⟩, ⟨"d.md", true, "v1"⟩] :
        Listing).map Entry.name).Nodup ∧
    (((diffTrees [⟨"a.md", true, "same"⟩, ⟨"b.md", true, "new"⟩, ⟨"d.md", true, "v2"⟩]
        [⟨"a.md", true, "same"⟩, ⟨"c.md", true, "gone"⟩, ⟨"d.md", true, "v1"⟩]).map
        ChangeRecord.filename).Nodup ∧
      ∀ n, n ∈ fileNames [⟨"a.md", true, "same"⟩, ⟨"b.md", true, "new"⟩, ⟨"d.md", true, "v2"⟩] →
        n ∈ fileNames [⟨"a.md", true, "same"⟩, ⟨"c.md", true, "gone"⟩, ⟨"d.md", true, "v1"⟩] →
        readFileIn [⟨"a.md", true, "same"⟩, ⟨"b.md", true, "new"⟩, ⟨"d.md", true, "v2"⟩] n =
          readFileIn [⟨"a.md", true, "same"⟩, ⟨"c.md", true, "gone"⟩, ⟨"d.md", true, "v1"⟩] n →
        n ∉ (diffTrees [⟨"a.md", true, "same"⟩, ⟨"b.md", true, "new"⟩, ⟨"d.md", true, "v2"⟩]
          [⟨"a.md", true, "same"⟩, ⟨"c.md", true, "gone"⟩, ⟨"d.md", true, "v1"⟩]).map
          ChangeRecord.filename) :=
  ⟨by decide, by decide,
    diffTrees_unique_and_omits_unchanged _ _ (by decide) (by decide)⟩

/-- **C6 counterexample.** The claim states that `diffTrees` yields an
identical, stably sorted `ChangeRecord` list independent of filesystem
iteration order.  Two listings holding the same two files, enumerated
in opposite orders, produce differently ordered results, and the
result is not sorted by filename: the handler never sorts. -/
theorem diffTrees_order_dependent_cex :
    (([⟨"a.md", true, ""⟩, ⟨"b.md", true, ""⟩] : Listing).Perm
      ([⟨"b.md", true, ""⟩, ⟨"a.md", true, ""⟩] : Listing)) ∧
    diffTrees [⟨"a.md", true, ""⟩, ⟨"b.md", true, ""⟩] [] ≠
      diffTrees [⟨"b.md", true, ""⟩, ⟨"a.md", true, ""⟩] [] ∧
    (diffTrees [⟨"b.md", true, ""⟩, ⟨"a.md", true, ""⟩] []).map ChangeRecord.filename =
      ["b.md", "a.md"] := by
  refine ⟨?_, by decide, by decide⟩
  decide

/-- **C6 (amended).** `diffTrees` is a pure, deterministic function of
the two directory listings, and listings that enumerate the same files
with the same contents — in any order — yield the same `ChangeRecord`s
up to list order.  The list order itself follows the filesystem
enumeration order of the listings (added files in working-listing
order, then deleted, then modified files in authoritative-listing
order) rather than a sorted order. -/
theorem diffTrees_perm (agentT agentT' userT userT' : Listing)
    (ha : (agentT.map Entry.name).Nodup) (hu : (userT.map Entry.name).Nodup)
    (hpa : agentT.Perm agentT') (hpu : userT.Perm userT') :
    (diffTrees agentT userT).Perm (diffTrees agentT' userT') := by
  unfold diffTrees
  exact ((addedRecords_perm ha hpa hpu).append
    (deletedRecords_perm hu hpa hpu)).append (modifiedRecords_perm ha hu hpa hpu)

/-- Witness for **C6 (amended)**: concrete permuted listings. -/
theorem diffTrees_perm_witness :
    (([⟨"a.md", true, "x"⟩, ⟨"b.md", true, "y"⟩] : Listing).map Entry.name).Nodup ∧
    (([⟨"a.md", true, "x"⟩, ⟨"c.md", true, "z"⟩] : Listing).map Entry.name).Nodup ∧
    (([⟨"a.md", true, "x"⟩, ⟨"b.md", true, "y"⟩] : Listing).Perm
      [⟨"b.md", true, "y"⟩, ⟨"a.md", true, "x"⟩]) ∧
    (([⟨"a.md", true, "x"⟩, ⟨"c.md", true, "z"⟩] : Listing).Perm
      [⟨"c.md", true, "z"⟩, ⟨"a.md", true, "x"⟩]) ∧
    (diffTrees [⟨"a.md", true, "x"⟩, ⟨"b.md", true, "y"⟩]
      [⟨"a.md", true, "x"⟩, ⟨"c.md", true, "z"⟩]).Perm
      (diffTrees [⟨"b.md", true, "y"⟩, ⟨"a.md", true, "x"⟩]
        [⟨"c.md", true, "z"⟩, ⟨"a.md", true, "x"⟩]) :=
  ⟨by decide, by decide, by decide, by decide,
    diffTrees_perm _ _ _ _ (by decide) (by decide) (by decide) (by decide)⟩

/-- **C7.** The reconciliation write operations are idempotent: for
every project configuration, filename and starting state of the two
trees, accepting the same file twice leaves the authoritative (user)
tree exactly as one accept leaves it, and rejecting twice leaves the
working (agent) tree exactly as one reject leaves it.  No hypotheses
are needed: the error paths (missing filename, missing configuration,
invalid filename) do not mutate the trees at all. -/
theorem accept_reject_idempotent (cfg : ProjectConfig) (f : String) (st : KbState) :
    (acceptPost cfg f (acceptPost cfg f st).state).state.user =
      (acceptPost cfg f st).state.user ∧
    (rejectPost cfg f (rejectPost cfg f st).state).state.agent =
      (rejectPost cfg f st).state.agent := by
  by_cases hf : f = ""
  · simp [acceptPost, rejectPost, hf]
  rcases cfg with _ | cfg
  · simp [acceptPost, rejectPost, hf]
  rcases cfg with _ | d
  · simp [acceptPost, rejectPost, hf]
  by_cases hbad : badFilename f = true
  · simp [acceptPost, rejectPost, hf, hbad]
  rw [Bool.not_eq_true] at hbad
  constructor
  · obtain ⟨h1u, h1a⟩ := acceptPost_ok_state d f st hf hbad
    obtain ⟨h2u, h2a⟩ := acceptPost_ok_state d f (acceptPost (some (some d)) f st).state hf hbad
    rw [h2u, h1u, h1a]
    rw [show ((some (acceptCoreUser (st.agent.getD []) (st.user.getD []) f)).getD [] : Listing) =
      acceptCoreUser (st.agent.getD []) (st.user.getD []) f from rfl]
    rw [acceptCoreUser_idem]
  · obtain ⟨h1a, h1u⟩ := rejectPost_ok_state d f st hf hbad
    obtain ⟨h2a, h2u⟩ := rejectPost_ok_state d f (rejectPost (some (some d)) f st).state hf hbad
    rw [h2a, h1a, h1u]
    rw [show ((some (rejectCoreAgent (st.user.getD []) (st.agent.getD []) f)).getD [] : Listing) =
      rejectCoreAgent (st.user.getD []) (st.agent.getD []) f from rfl]
    rw [rejectCoreAgent_idem]

/-- **C2 counterexample.** The claim states that the export endpoint
concatenates the files of the authoritative (user-approved) tree.  In
a state where the authoritative tree holds `a.md = "AUTH"` and the
working (agent) tree holds `a.md = "WORK"`, the handler returns the
working tree's concatenation `"WORK"`, not the authoritative
concatenation `"AUTH"`: it resolves the knowledge base from
`input_dir`, the working tree. -/
theorem kb_export_not_authoritative_cex :
    exportGet (some (some "in"))
      ⟨some [⟨"a.md", true, "AUTH"⟩], some [⟨"a.md", true, "WORK"⟩]⟩ =
      .ok "WORK" ∧
    exportGet (some (some "in"))
      ⟨some [⟨"a.md", true, "AUTH"⟩], some [⟨"a.md", true, "WORK"⟩]⟩ ≠
      .ok "AUTH" := by
  decide

/-- **C2 (amended).** The export operation returns the concatenation
(with newline separators) of all markdown files of the *working*
(agent) tree, sorted by filename; the authoritative tree plays no part
in the result.  Hypotheses: distinct entry names (as a real directory
guarantees) and at least one markdown file (otherwise the handler
returns a not-found error). -/
theorem kb_export_working_tree_sorted (d : String) (uT uT' : Option Listing)
    (l : Listing) (hn : (l.map Entry.name).Nodup) (hne : mdEntries l ≠ []) :
    ∃ sorted : Listing,
      sorted.Perm (mdEntries l) ∧
      List.Sorted entryLe sorted ∧
      exportGet (some (some d)) ⟨uT, some l⟩ =
        .ok (joinWith "\n" (sorted.map Entry.content)) ∧
      exportGet (some (some d)) ⟨uT, some l⟩ =
        exportGet (some (some d)) ⟨uT', some l⟩ := by
  refine ⟨List.insertionSort entryLe (mdEntries l),
    List.perm_insertionSort _ _, List.sorted_insertionSort _ _, ?_, rfl⟩
  have hlen : (List.insertionSort entryLe (mdEntries l)).length ≠ 0 := by
    rw [(List.perm_insertionSort entryLe (mdEntries l)).length_eq]
    intro h0
    exact hne (List.length_eq_zero.mp h0)
  show (if (List.insertionSort entryLe (mdEntries l)).length = 0 then ExportResp.noFiles
    else ExportResp.ok (joinWith "\n" ((List.insertionSort entryLe (mdEntries l)).map
      (fun e => readFileIn l e.name)))) =
    ExportResp.ok (joinWith "\n" ((List.insertionSort entryLe (mdEntries l)).map Entry.content))
  rw [if_neg hlen]
  congr 1
  congr 1
  apply List.map_congr_left
  intro e he
  have he' : e ∈ l := by
    have := (List.perm_insertionSort entryLe (mdEntries l)).mem_iff.mp he
    exact List.mem_of_mem_filter this
  exact readFileIn_eq_content_of_mem hn he'

/-- Witness for **C2 (amended)**: two unsorted working-tree files and
two distinct authoritative trees. -/
theorem kb_export_working_tree_sorted_witness :
    (([⟨"b.md", true, "B"⟩, ⟨"a.md", true, "A"⟩] : Listing).map Entry.name).Nodup ∧
    mdEntries [⟨"b.md", true, "B"⟩, ⟨"a.md", true, "A"⟩] ≠ [] ∧
    (∃ sorted : Listing,
      sorted.Perm (mdEntries [⟨"b.md", true, "B"⟩, ⟨"a.md", true, "A"⟩]) ∧
      List.Sorted entryLe sorted ∧
      exportGet (some (some "d")) ⟨some [⟨"x.md", true, "X"⟩],
        some [⟨"b.md", true, "B"⟩, ⟨"a.md", true, "A"⟩]⟩ =
        .ok (joinWith "\n" (sorted.map Entry.content)) ∧
      exportGet (some (some "d")) ⟨some [⟨"x.md", true, "X"⟩],
        some [⟨"b.md", true, "B"⟩, ⟨"a.md", true, "A"⟩]⟩ =
        exportGet (some (some "d")) ⟨none,
        some [⟨"b.md", true, "B"⟩, ⟨"a.md", true, "A"⟩]⟩) :=
  ⟨by decide, by decide,
    kb_export_working_tree_sorted "d" (some [⟨"x.md", true, "X"⟩]) none
      [⟨"b.md", true, "B"⟩, ⟨"a.md", true, "A"⟩] (by decide) (by decide)⟩

/-- **C3 (code bug).** The claim — and the repository's own escaping
variant of the handler, whose comment explains that line terminators
must become the literal sequence backslash-`n` so that a message is
delivered as one line — requires `sendInput` to escape embedded line
terminators.  The handler mounted at `synthesize/input/route.js`
writes the text verbatim plus a terminator: for the text `"a\nb"` it
writes `"a\nb\n"` (two line terminators — the agent's line-oriented
reader sees two messages), where the escaping variant writes
`"a\\nb\n"` (one terminator, one message). -/
theorem sendInput_does_not_escape_newlines :
    (inputPostRaw [("s", ⟨some ⟨false, false, false⟩, [], [], "running"⟩)]
      "s" "a\nb").snd = ["a\nb\n"] ∧
    (inputPostRaw [("s", ⟨some ⟨false, false, false⟩, [], [], "running"⟩)]
      "s" "a\nb").fst = .ok ∧
    countChar "a\nb\n" '\n' = 2 ∧
    (inputPostEscaped [("s", ⟨some ⟨false, false, false⟩, [], [], "running"⟩)]
      "s" "a\nb").snd = ["a\\nb\n"] ∧
    countChar "a\\nb\n" '\n' = 1 := by
  decide

/-- **C4 counterexample.** The claim states that `sendInput` on a
session whose process has already exited fails with an invalid-session
error and performs no write.  For a registered session whose child has
exited (status `"exited"`, `exited = true`) the handler — which checks
only that the session is registered and has a child handle — returns
success and attempts the write. -/
theorem sendInput_exited_session_cex :
    inputPostRaw [("s", ⟨some ⟨true, false, false⟩, [], [], "exited"⟩)] "s" "hi" =
      (.ok, ["hi\n"]) ∧
    (inputPostRaw [("s", ⟨some ⟨true, false, false⟩, [], [], "exited"⟩)]
      "s" "hi").fst ≠ .invalidSession := by
  decide

/-- **C4 (amended).** `sendInput` fails with an invalid-session error,
synchronously and with no write attempted, exactly when the session id
is not registered (for instance after stop/dispose removed it) or the
registered session has no child handle.  A session whose process has
exited but which is still registered is not rejected: the write to the
process's input stream is still attempted. -/
theorem sendInput_invalid_session_amended (store : Store) (sid text : String)
    (hsid : trimStr sid ≠ "") :
    (getSession store (trimStr sid) = none →
      inputPostRaw store sid text = (.invalidSession, [])) ∧
    (∀ sess, getSession store (trimStr sid) = some sess → sess.child = none →
      inputPostRaw store sid text = (.invalidSession, [])) ∧
    (∀ sess child, getSession store (trimStr sid) = some sess →
      sess.child = some child →
      (inputPostRaw store sid text).snd = [text ++ "\n"]) := by
  refine ⟨?_, ?_, ?_⟩
  · intro hnone
    simp [inputPostRaw, hsid, hnone]
  · intro sess hs hchild
    simp [inputPostRaw, hsid, hs, hchild]
  · intro sess child hs hchild
    cases hthrow : child.stdinThrows <;>
      simp [inputPostRaw, hsid, hs, hchild, hthrow]

/-- Witness for **C4 (amended)**: an empty registry rejects the call
with no write; a registered session with a child gets the write. -/
theorem sendInput_invalid_session_amended_witness :
    (trimStr "s" ≠ "") ∧
    ((getSession ([] : Store) (trimStr "s") = none →
      inputPostRaw [] "s" "x" = (.invalidSession, [])) ∧
    (∀ sess, getSession ([] : Store) (trimStr "s") = some sess → sess.child = none →
      inputPostRaw [] "s" "x" = (.invalidSession, [])) ∧
    (∀ sess child, getSession ([] : Store) (trimStr "s") = some sess →
      sess.child = some child →
      (inputPostRaw [] "s" "x").snd = ["x" ++ "\n"])) :=
  ⟨by decide, sendInput_invalid_session_amended [] "s" "x" (by decide)⟩

/-- **C5.** Attaching a subscriber to a session that has already
terminated (status `"exited"` or `"error"`) succeeds: the stream
handler replays the entire buffered history to that subscriber and
immediately follows it with one status frame carrying the terminal
status — the end-of-stream signal of the event-stream protocol, on
which clients close the connection — and the subscriber is registered
with the session with the buffer intact. -/
theorem attach_after_termination (store : Store) (sid : String) (sess : Sess)
    (w : Client) (hsid : trimStr sid ≠ "")
    (hs : getSession store (trimStr sid) = some sess)
    (hterm : sess.status = "exited" ∨ sess.status = "error")
    (hw : w.failing = false) :
    (streamGet store sid w).fst =
      .ok (sess.logs.map Frame.log ++ [Frame.status sess.status none]) true ∧
    ∃ sess', getSession (streamGet store sid w).snd (trimStr sid) = some sess' ∧
      sess'.logs = sess.logs ∧ w ∈ sess'.clients := by
  unfold streamGet
  simp only [hsid, if_neg, hs, hw, Bool.false_eq_true, ite_false]
  constructor
  · trivial
  · unfold addClient
    rw [hs]
    refine ⟨_, getSession_setSession_self _ hs, rfl, ?_⟩
    by_cases hmem : w ∈ sess.clients
    · simp [hmem]
    · simp [hmem]

/-- Witness for **C5**: a finished session with two buffered lines and
a fresh, healthy subscriber. -/
theorem attach_after_termination_witness :
    (trimStr "s" ≠ "") ∧
    getSession [("s", ⟨some ⟨true, false, false⟩, ["l1", "l2"], [], "exited"⟩)]
      (trimStr "s") = some ⟨some ⟨true, false, false⟩, ["l1", "l2"], [], "exited"⟩ ∧
    (("exited" : String) = "exited" ∨ ("exited" : String) = "error") ∧
    ((⟨7, false⟩ : Client).failing = false) ∧
    ((streamGet [("s", ⟨some ⟨true, false, false⟩, ["l1", "l2"], [], "exited"⟩)]
        "s" ⟨7, false⟩).fst =
      .ok ((["l1", "l2"] : List String).map Frame.log ++ [Frame.status "exited" none]) true ∧
    ∃ sess', getSession (streamGet
        [("s", ⟨some ⟨true, false, false⟩, ["l1", "l2"], [], "exited"⟩)]
        "s" ⟨7, false⟩).snd (trimStr "s") = some sess' ∧
      sess'.logs = ["l1", "l2"] ∧ (⟨7, false⟩ : Client) ∈ sess'.clients) :=
  ⟨by decide, by decide, Or.inl rfl, rfl,
    attach_after_termination
      [("s", ⟨some ⟨true, false, false⟩, ["l1", "l2"], [], "exited"⟩)] "s"
      ⟨some ⟨true, false, false⟩, ["l1", "l2"], [], "exited"⟩ ⟨7, false⟩
      (by decide) (by decide) (Or.inl rfl) rfl⟩

/-- **C8 counterexample.** The claim quantifies over every file that
differs only by a working-tree edit.  A file legally named `a..md`
(its name contains two consecutive dots) added by the agent is
reported by `diffTrees`, but `reject("a..md")` is refused by the
substring check `filename.includes('..')` without touching the trees,
so re-running `diffTrees` still reports a record for it. -/
theorem reject_roundtrip_dotdot_cex :
    (diffTrees [⟨"a..md", true, "x"⟩] []).map ChangeRecord.filename = ["a..md"] ∧
    rejectPost (some (some "in")) "a..md" ⟨some [], some [⟨"a..md", true, "x"⟩]⟩ =
      ⟨.invalidFilename, ⟨some [], some [⟨"a..md", true, "x"⟩]⟩,
        [.statConfig, .readConfig]⟩ ∧
    (diffTrees
      (((rejectPost (some (some "in")) "a..md"
          ⟨some [], some [⟨"a..md", true, "x"⟩]⟩).state.agent).getD [])
      (((rejectPost (some (some "in")) "a..md"
          ⟨some [], some [⟨"a..md", true, "x"⟩]⟩).state.user).getD [])).map
      ChangeRecord.filename = ["a..md"] := by
  decide

/-- **C8 (amended).** For every file `f` whose name passes reject's
validation (no `..` substring and no path separators — reject refuses
other names and leaves both trees untouched), running `reject(f)` and
then `diffTrees` yields a `ChangeRecord` list with no record for `f`:
whatever the working-tree edit was (add, modify or delete), the
authoritative content or absence is copied back, so the two trees
agree on `f`.  Hypothesis: the listings hold file entries only (the
knowledge-base directories are flat). -/
theorem reject_roundtrip (d f : String) (userT agentT : Listing)
    (hfu : ∀ e ∈ userT, e.isFile = true) (hfa : ∀ e ∈ agentT, e.isFile = true)
    (hf : f ≠ "") (hbad : badFilename f = false) :
    f ∉ (diffTrees
      (((rejectPost (some (some d)) f ⟨some userT, some agentT⟩).state.agent).getD [])
      userT).map ChangeRecord.filename := by
  obtain ⟨hra, _⟩ :=
    rejectPost_ok_state d f ⟨some userT, some agentT⟩ hf hbad
  have hra' : (rejectPost (some (some d)) f ⟨some userT, some agentT⟩).state.agent =
      some (rejectCoreAgent userT agentT f) := hra
  rw [hra']
  simp only [Option.getD_some]
  rw [map_filename_diffTrees]
  unfold rejectCoreAgent
  intro hmem
  by_cases hU : hasEntry userT f = true
  · rw [if_pos hU] at hmem
    have hR : hasEntry (writeFileIn agentT f (readFileIn userT f)) f = true :=
      hasEntry_writeFileIn_self agentT f (readFileIn userT f)
    have hallR : ∀ e ∈ writeFileIn agentT f (readFileIn userT f), e.isFile = true :=
      writeFileIn_allFiles hfa f (readFileIn userT f)
    have hRmem := mem_fileNames_iff_of_hasEntry hallR hR
    have hUmem := mem_fileNames_iff_of_hasEntry hfu hU
    have hread : readFileIn (writeFileIn agentT f (readFileIn userT f)) f =
        readFileIn userT f :=
      readFileIn_writeFileIn_self agentT f (readFileIn userT f)
    rw [List.mem_append, List.mem_append] at hmem
    rcases hmem with (hmem | hmem) | hmem
    · rw [List.mem_filter] at hmem
      exact (decide_eq_true_eq.mp hmem.2) (hUmem.mpr (hRmem.mp hmem.1))
    · rw [List.mem_filter] at hmem
      exact (decide_eq_true_eq.mp hmem.2) (hRmem.mpr (hUmem.mp hmem.1))
    · rw [List.mem_filter] at hmem
      exact (decide_eq_true_eq.mp hmem.2) (by rw [hread])
  · rw [if_neg hU] at hmem
    have hUnot : f ∉ fileNames userT :=
      not_mem_fileNames_of_not_hasEntry (Bool.not_eq_true _ ▸ hU)
    rw [List.mem_append, List.mem_append] at hmem
    by_cases hA : hasEntry agentT f = true
    · rw [if_pos hA] at hmem
      have hRnot : f ∉ fileNames (unlinkIn agentT f) :=
        not_mem_fileNames_unlinkIn agentT f
      rcases hmem with (hmem | hmem) | hmem
      · exact hRnot (List.mem_filter.mp hmem).1
      · exact hUnot (List.mem_filter.mp hmem).1
      · exact hUnot (List.mem_filter.mp (List.mem_filter.mp hmem).1).1
    · rw [if_neg hA] at hmem
      have hAnot : f ∉ fileNames agentT :=
        not_mem_fileNames_of_not_hasEntry (Bool.not_eq_true _ ▸ hA)
      rcases hmem with (hmem | hmem) | hmem
      · exact hAnot (List.mem_filter.mp hmem).1
      · exact hUnot (List.mem_filter.mp hmem).1
      · exact hUnot (List.mem_filter.mp (List.mem_filter.mp hmem).1).1

/-- Witness for **C8 (amended)**: a file modified in the working tree
only, rejected and re-diffed. -/
theorem reject_roundtrip_witness :
    (∀ e ∈ ([⟨"a.md", true, "U"⟩] : Listing), e.isFile = true) ∧
    (∀ e ∈ ([⟨"a.md", true, "W"⟩] : Listing), e.isFile = true) ∧
    ("a.md" : String) ≠ "" ∧
    badFilename "a.md" = false ∧
    "a.md" ∉ (diffTrees
      (((rejectPost (some (some "d")) "a.md"
          ⟨some [⟨"a.md", true, "U"⟩], some [⟨"a.md", true, "W"⟩]⟩).state.agent).getD [])
      [⟨"a.md", true, "U"⟩]).map ChangeRecord.filename :=
  ⟨by decide, by decide, by decide, by decide,
    reject_roundtrip "d" "a.md" [⟨"a.md", true, "U"⟩] [⟨"a.md", true, "W"⟩]
      (by decide) (by decide) (by decide) (by decide)⟩

/-- **C9 counterexample.** The claim states that a traversal filename
fails validation before *any* filesystem access occurs.  For the
filename `"../x"` both handlers do fail validation and leave the trees
untouched, but only after statting and reading the project
configuration file: the trace of filesystem operations preceding the
error is non-empty. -/
theorem validate_after_config_read_cex :
    acceptPost (some (some "in")) "../x" ⟨some [], some []⟩ =
      ⟨.invalidFilename, ⟨some [], some []⟩, [.statConfig, .readConfig]⟩ ∧
    rejectPost (some (some "in")) "../x" ⟨some [], some []⟩ =
      ⟨.invalidFilename, ⟨some [], some []⟩, [.statConfig, .readConfig]⟩ ∧
    (acceptPost (some (some "in")) "../x" ⟨some [], some []⟩).trace ≠ [] := by
  decide

/-- **C9 (amended).** For every filename containing a path-traversal
segment or a path separator, both accept and reject fail validation
before any filesystem access *to either tree* occurs — the only
filesystem operations ever performed are the stat and read of the
project configuration file, which locate the trees — and neither tree
is read, written or otherwise mutated.  When the configuration is
present with an `input_dir`, the response is the invalid-filename
error. -/
theorem invalid_filename_guards_trees (cfg : ProjectConfig) (f : String)
    (st : KbState) (hf : f ≠ "") (hbad : badFilename f = true) :
    (acceptPost cfg f st).state = st ∧
    (∀ op ∈ (acceptPost cfg f st).trace, op.isConfigOnly = true) ∧
    (rejectPost cfg f st).state = st ∧
    (∀ op ∈ (rejectPost cfg f st).trace, op.isConfigOnly = true) ∧
    (∀ dir, cfg = some (some dir) →
      (acceptPost cfg f st).resp = .invalidFilename ∧
      (rejectPost cfg f st).resp = .invalidFilename) := by
  rcases cfg with _ | cfg
  · simp [acceptPost, rejectPost, hf, FsOp.isConfigOnly]
  rcases cfg with _ | d
  · simp [acceptPost, rejectPost, hf, FsOp.isConfigOnly]
  · simp [acceptPost, rejectPost, hf, hbad, FsOp.isConfigOnly]

/-- Witness for **C9 (amended)**: the traversal filename `"../x"`. -/
theorem invalid_filename_guards_trees_witness :
    (("../x" : String) ≠ "") ∧
    badFilename "../x" = true ∧
    ((acceptPost (some (some "in")) "../x" ⟨some [], some []⟩).state =
        ⟨some [], some []⟩ ∧
    (∀ op ∈ (acceptPost (some (some "in")) "../x" ⟨some [], some []⟩).trace,
      op.isConfigOnly = true) ∧
    (rejectPost (some (some "in")) "../x" ⟨some [], some []⟩).state =
        ⟨some [], some []⟩ ∧
    (∀ op ∈ (rejectPost (some (some "in")) "../x" ⟨some [], some []⟩).trace,
      op.isConfigOnly = true) ∧
    (∀ dir, (some (some "in") : ProjectConfig) = some (some dir) →
      (acceptPost (some (some "in")) "../x" ⟨some [], some []⟩).resp =
        .invalidFilename ∧
      (rejectPost (some (some "in")) "../x" ⟨some [], some []⟩).resp =
        .invalidFilename)) :=
  ⟨by decide, by decide,
    invalid_filename_guards_trees (some (some "in")) "../x" ⟨some [], some []⟩
      (by decide) (by decide)⟩

/-- **C10.** For every `appendLog` or `setStatus` call on a registered
session, the buffer append (respectively the status overwrite) always
takes effect and one delivery attempt is made to every currently
attached subscriber in order — a failing subscriber's attempt is
recorded as unsuccessful but neither prevents the buffer mutation nor
the attempts to the remaining subscribers, because each write is
individually wrapped in a catch; the operations are total functions
and never raise. -/
theorem appendLog_setStatus_deliver_all (store : Store) (id line status : String)
    (code : Option Int) (sess : Sess) (hs : getSession store id = some sess) :
    getSession (appendLog store id line).fst id =
      some { sess with logs := sess.logs ++ [line] } ∧
    (appendLog store id line).snd = sess.clients.map (fun c => (c, !c.failing)) ∧
    getSession (setStatus store id status code).fst id =
      some { sess with status := status } ∧
    (setStatus store id status code).snd =
      sess.clients.map (fun c => (c, !c.failing)) := by
  unfold appendLog setStatus
  rw [hs]
  refine ⟨getSession_setSession_self _ hs, broadcast_eq_map _,
    getSession_setSession_self _ hs, broadcast_eq_map _⟩

/-- Witness for **C10**: a session with a failing subscriber between
two healthy ones; the append lands, and all three delivery attempts
are made. -/
theorem appendLog_setStatus_deliver_all_witness :
    getSession [("s", ⟨some ⟨false, false, false⟩, ["l0"],
        [⟨0, false⟩, ⟨1, true⟩, ⟨2, false⟩], "running"⟩)] "s" =
      some ⟨some ⟨false, false, false⟩, ["l0"],
        [⟨0, false⟩, ⟨1, true⟩, ⟨2, false⟩], "running"⟩ ∧
    (getSession (appendLog [("s", ⟨some ⟨false, false, false⟩, ["l0"],
        [⟨0, false⟩, ⟨1, true⟩, ⟨2, false⟩], "running"⟩)] "s" "l1").fst "s" =
      some ⟨some ⟨false, false, false⟩, ["l0", "l1"],
        [⟨0, false⟩, ⟨1, true⟩, ⟨2, false⟩], "running"⟩ ∧
    (appendLog [("s", ⟨some ⟨false, false, false⟩, ["l0"],
        [⟨0, false⟩, ⟨1, true⟩, ⟨2, false⟩], "running"⟩)] "s" "l1").snd =
      ([⟨0, false⟩, ⟨1, true⟩, ⟨2, false⟩] : List Client).map
        (fun c => (c, !c.failing)) ∧
    getSession (setStatus [("s", ⟨some ⟨false, false, false⟩, ["l0"],
        [⟨0, false⟩, ⟨1, true⟩, ⟨2, false⟩], "running"⟩)] "s" "exited"
        (some 0)).fst "s" =
      some ⟨some ⟨false, false, false⟩, ["l0"],
        [⟨0, false⟩, ⟨1, true⟩, ⟨2, false⟩], "exited"⟩ ∧
    (setStatus [("s", ⟨some ⟨false, false, false⟩, ["l0"],
        [⟨0, false⟩, ⟨1, true⟩, ⟨2, false⟩], "running"⟩)] "s" "exited"
        (some 0)).snd =
      ([⟨0, false⟩, ⟨1, true⟩, ⟨2, false⟩] : List Client).map
        (fun c => (c, !c.failing))) :=
  ⟨by decide,
    appendLog_setStatus_deliver_all
      [("s", ⟨some ⟨false, false, false⟩, ["l0"],
        [⟨0, false⟩, ⟨1, true⟩, ⟨2, false⟩], "running"⟩)]
      "s" "l1" "exited" (some 0)
      ⟨some ⟨false, false, false⟩, ["l0"],
        [⟨0, false⟩, ⟨1, true⟩, ⟨2, false⟩], "running"⟩ (by decide)⟩

end Socratic
